import Mathlib

/-!
Verification development for the heap history viewer core
(heaphistory.h): coordinate model, saturating arithmetic, event log
with conflict tracking, and the point-query spatial index.

Machine integers are embedded as natural numbers together with the
maximum value of the corresponding C++ unsigned type; the C++ type
double is embedded as the exact rationals, with the conversion from
double back to an unsigned type embedded as floor (the value is
non-negative whenever the code performs such a conversion).
-/

/-- Maximum value of a 64-bit unsigned integer. -/
def u64max : ℕ := 2 ^ 64 - 1

/-- Maximum value of a 32-bit unsigned integer. -/
def u32max : ℕ := 2 ^ 32 - 1

/-- Integer window over (address, tick) space, from heaphistory.h lines
14-24.  Fields are the four unsigned bounds. -/
structure HeapWindow where
  minimum_address_ : ℕ
  maximum_address_ : ℕ
  minimum_tick_ : ℕ
  maximum_tick_ : ℕ
  deriving DecidableEq, Repr

/-- Embeds the uint64 subtraction maximum_address_ - minimum_address_
from heaphistory.h line 17 (wrapping subtraction modulo 2 to the 64). -/
def HeapWindow.height (w : HeapWindow) : ℕ :=
  (w.maximum_address_ + 2 ^ 64 - w.minimum_address_) % 2 ^ 64

/-- Embeds the uint32 subtraction maximum_tick_ - minimum_tick_ from
heaphistory.h line 18 (wrapping subtraction modulo 2 to the 32). -/
def HeapWindow.width (w : HeapWindow) : ℕ :=
  (w.maximum_tick_ + 2 ^ 32 - w.minimum_tick_) % 2 ^ 32

/-- Embeds the template saturatingAddition from heaphistory.h lines
29-42.  The type parameter T becomes the bound tmax; the double value
becomes an exact rational; the pointer out-parameter becomes the second
component of the returned pair, the int32 return code the first.  The
final store of result + value into the unsigned location truncates, so
it is embedded as floor (the value is non-negative in that branch). -/
def saturatingAddition (tmax : ℕ) (value : ℚ) (result : ℕ) : ℤ × ℕ :=
  if 0 < value ∧ ((tmax - result : ℕ) : ℚ) < value then
    (1, tmax)
  else if value < 0 ∧ (result : ℚ) < |value| then
    (-1, 0)
  else
    (0, (⌊(result : ℚ) + value⌋).toNat)

/-- Continuous window over (address, tick) space, from heaphistory.h
lines 44-110: four unsigned bounds plus the fractional pan remainders
x_shift_ and y_shift_ (floats in the source, exact rationals here). -/
@[ext]
structure ContinuousHeapWindow where
  minimum_address_ : ℕ
  maximum_address_ : ℕ
  minimum_tick_ : ℕ
  maximum_tick_ : ℕ
  x_shift_ : ℚ
  y_shift_ : ℚ
  deriving DecidableEq, Repr

/-- Embeds ContinuousHeapWindow::reset from heaphistory.h lines 51-56:
copies the four integer bounds from the given HeapWindow and touches
nothing else. -/
def ContinuousHeapWindow.reset (w : ContinuousHeapWindow) (hw : HeapWindow) :
    ContinuousHeapWindow :=
  { w with
    minimum_address_ := hw.minimum_address_
    maximum_address_ := hw.maximum_address_
    minimum_tick_ := hw.minimum_tick_
    maximum_tick_ := hw.maximum_tick_ }

/-- Embeds getMinimumAddress from heaphistory.h line 57. -/
def ContinuousHeapWindow.getMinimumAddress (w : ContinuousHeapWindow) : ℕ :=
  w.minimum_address_

/-- Embeds getMinimumAddressLow32 from heaphistory.h lines 58-60: the
static_cast of a uint64 to uint32 keeps the value modulo 2 to the 32. -/
def ContinuousHeapWindow.getMinimumAddressLow32 (w : ContinuousHeapWindow) : ℕ :=
  w.minimum_address_ % 2 ^ 32

/-- Embeds getMinimumAddressHigh32 from heaphistory.h lines 61-63: the
uint64 is shifted right by 32 and then cast to uint32. -/
def ContinuousHeapWindow.getMinimumAddressHigh32 (w : ContinuousHeapWindow) : ℕ :=
  (w.minimum_address_ / 2 ^ 32) % 2 ^ 32

/-- Embeds the template ContinuousHeapWindow::saturatedAdd from
heaphistory.h lines 83-97.  When addend is zero, control in the C++
code reaches the end of the function without returning a value; this is
embedded as none.  The conversions of the double results back to the
unsigned type T truncate and are embedded as floor. -/
def saturatedAdd (value : ℕ) (addend : ℚ) (upperlimit lowerlimit : ℕ) :
    Option ℕ :=
  if 0 < addend then
    if ((upperlimit - value : ℕ) : ℚ) < addend then
      some upperlimit
    else
      some (⌊(value : ℚ) + addend⌋).toNat
  else if addend < 0 then
    if ((value - lowerlimit : ℕ) : ℚ) < |addend| then
      some lowerlimit
    else
      some (⌊(value : ℚ) - |addend|⌋).toNat
  else
    none

/-- Modelled from the spec: the body of ContinuousHeapWindow::pan is
not part of the source tree (heaphistory.h line 81 only declares it).
Following section 4.2, pan shifts the tick bounds by dx and the address
bounds by dy through the saturating-addition primitive, and the
continuous window carries sub-unit shift accumulators so that repeated
small pans do not lose precision: the delta is added to the accumulator,
the integer part is applied to the bounds, and the fractional remainder
is stored back.  The second component collects the four saturation
return codes (min tick, max tick, min address, max address), zero
meaning no clamp. -/
def ContinuousHeapWindow.pan (w : ContinuousHeapWindow) (dx dy : ℚ) :
    ContinuousHeapWindow × List ℤ :=
  let sx : ℤ := ⌊w.x_shift_ + dx⌋
  let sy : ℤ := ⌊w.y_shift_ + dy⌋
  ({ minimum_address_ := (saturatingAddition u64max (sy : ℚ) w.minimum_address_).2
     maximum_address_ := (saturatingAddition u64max (sy : ℚ) w.maximum_address_).2
     minimum_tick_ := (saturatingAddition u32max (sx : ℚ) w.minimum_tick_).2
     maximum_tick_ := (saturatingAddition u32max (sx : ℚ) w.maximum_tick_).2
     x_shift_ := w.x_shift_ + dx - sx
     y_shift_ := w.y_shift_ + dy - sy },
   [(saturatingAddition u32max (sx : ℚ) w.minimum_tick_).1,
    (saturatingAddition u32max (sx : ℚ) w.maximum_tick_).1,
    (saturatingAddition u64max (sy : ℚ) w.minimum_address_).1,
    (saturatingAddition u64max (sy : ℚ) w.maximum_address_).1])

/-- Saturating store of an exact rational into an unsigned location of
maximum tmax: clamp below at 0 and above at tmax, truncate otherwise. -/
def satClampToNat (tmax : ℕ) (q : ℚ) : ℕ :=
  if q < 0 then 0
  else if (tmax : ℚ) < q then tmax
  else (⌊q⌋).toNat

/-- Modelled from the spec: the body of
ContinuousHeapWindow::zoomToPoint is not part of the source tree
(heaphistory.h line 101 only declares it).  Following section 4.2, the
fixed point at relative position (dx, dy) of the old window is held
fixed: new_min = fixed - factor * (fixed - old_min) and symmetrically
new_max = fixed + factor * (old_max - fixed), stored back through
saturating arithmetic.  dx scales along the tick axis, dy along the
address axis. -/
def ContinuousHeapWindow.zoomToPoint (w : ContinuousHeapWindow)
    (dx dy how_much_x how_much_y : ℚ) : ContinuousHeapWindow :=
  let fx : ℚ := (w.minimum_tick_ : ℚ) + dx * ((w.maximum_tick_ : ℚ) - (w.minimum_tick_ : ℚ))
  let fy : ℚ := (w.minimum_address_ : ℚ) + dy * ((w.maximum_address_ : ℚ) - (w.minimum_address_ : ℚ))
  { w with
    minimum_tick_ := satClampToNat u32max (fx - how_much_x * (fx - (w.minimum_tick_ : ℚ)))
    maximum_tick_ := satClampToNat u32max (fx + how_much_x * ((w.maximum_tick_ : ℚ) - fx))
    minimum_address_ := satClampToNat u64max (fy - how_much_y * (fy - (w.minimum_address_ : ℚ)))
    maximum_address_ := satClampToNat u64max (fy + how_much_y * ((w.maximum_address_ : ℚ) - fy)) }

/-- One recorded allocation, following the Block data model of spec
section 3 (the concrete heapblock.h is not part of the source tree):
start address, size with end = start + size, heap identifier, allocation
tick, and an optional free tick that is unset while the block is live. -/
structure HeapBlock where
  address_ : ℕ
  size_ : ℕ
  heap_id_ : ℕ
  alloc_tick_ : ℕ
  free_tick_ : Option ℕ
  deriving DecidableEq, Repr

/-- Conflict record, from heaphistory.h lines 112-118: tick, address,
and whether the conflicting operation was an allocation (true) or a
free (false). -/
structure HeapConflict where
  tick_ : ℕ
  address_ : ℕ
  allocation_or_free_ : Bool
  deriving DecidableEq, Repr

/-- Association-list lookup for the live-blocks map keyed by
(address, heap id). -/
def lookupLive : List ((ℕ × ℕ) × ℕ) → ℕ × ℕ → Option ℕ
  | [], _ => none
  | (k, v) :: rest, key => if k = key then some v else lookupLive rest key

/-- Association-list insert-or-replace for the live-blocks map. -/
def insertLive : List ((ℕ × ℕ) × ℕ) → ℕ × ℕ → ℕ → List ((ℕ × ℕ) × ℕ)
  | [], key, v => [(key, v)]
  | (k, v0) :: rest, key, v =>
    if k = key then (key, v) :: rest else (k, v0) :: insertLive rest key v

/-- Association-list removal for the live-blocks map. -/
def eraseLive : List ((ℕ × ℕ) × ℕ) → ℕ × ℕ → List ((ℕ × ℕ) × ℕ)
  | [], _ => []
  | (k, v0) :: rest, key =>
    if k = key then rest else (k, v0) :: eraseLive rest key

/-- Sets the free tick of the block at the given position in the log. -/
def closeBlockAt : List HeapBlock → ℕ → ℕ → List HeapBlock
  | [], _, _ => []
  | b :: rest, 0, t => { b with free_tick_ := some t } :: rest
  | b :: rest, i + 1, t => b :: closeBlockAt rest i t

/-- The heap history state, from heaphistory.h lines 120-191: the
append-only block log, the live-blocks map from (address, heap id) to
log position, the conflict log, the running tick counter, the current
continuous window and the global bounding area.  The cached
address-sorted iterators are not a separate field here; the point
queries sort the log on demand, matching a freshly rebuilt cache. -/
structure HeapHistory where
  heap_blocks_ : List HeapBlock
  live_blocks_ : List ((ℕ × ℕ) × ℕ)
  conflicts_ : List HeapConflict
  current_tick_ : ℕ
  current_window_ : ContinuousHeapWindow
  global_area_ : HeapWindow
  deriving DecidableEq, Repr

/-- Embeds setCurrentWindowToGlobal from heaphistory.h line 126: resets
the current continuous window from the global area. -/
def HeapHistory.setCurrentWindowToGlobal (h : HeapHistory) : HeapHistory :=
  { h with current_window_ := h.current_window_.reset h.global_area_ }

/-- Modelled from the spec: growth of the Global Area (spec section 3),
used by the record operations whose bodies are not part of the source
tree.  Minima never increase, maxima never decrease, and the address
maximum saturates at the 64-bit limit. -/
def growGlobal (g : HeapWindow) (address size tick : ℕ) : HeapWindow :=
  { minimum_address_ := min g.minimum_address_ address
    maximum_address_ := max g.maximum_address_ (min (address + size) u64max)
    minimum_tick_ := min g.minimum_tick_ tick
    maximum_tick_ := max g.maximum_tick_ tick }

/-- Modelled from the spec: the body of HeapHistory::recordMalloc is
not part of the source tree (heaphistory.h line 145 only declares it).
Following section 4.1, it opens a new block at the current tick and
appends it to the log, logs a double-alloc conflict when the live map
already holds the key and overwrites that entry with the new block
(last-writer-wins, the stale block stays in the log), advances the
tick counter, and extends the global area. -/
def HeapHistory.recordMalloc (h : HeapHistory) (address size : ℕ)
    (heap_id : ℕ) : HeapHistory :=
  let b : HeapBlock :=
    { address_ := address, size_ := size, heap_id_ := heap_id,
      alloc_tick_ := h.current_tick_, free_tick_ := none }
  { h with
    heap_blocks_ := h.heap_blocks_ ++ [b]
    live_blocks_ := insertLive h.live_blocks_ (address, heap_id) h.heap_blocks_.length
    conflicts_ :=
      if (lookupLive h.live_blocks_ (address, heap_id)).isSome then
        h.conflicts_ ++ [{ tick_ := h.current_tick_, address_ := address,
                           allocation_or_free_ := true }]
      else h.conflicts_
    current_tick_ := h.current_tick_ + 1
    global_area_ := growGlobal h.global_area_ address size h.current_tick_ }

/-- Modelled from the spec: the body of HeapHistory::recordFree is not
part of the source tree (heaphistory.h line 146 only declares it).
Following section 4.1, when the live map has no entry for the key a
free-of-unknown-address conflict is logged and the operation is
otherwise a no-op; when it has one, the referenced block gets the
current tick as its free tick, the tick counter advances, and the live
entry is removed. -/
def HeapHistory.recordFree (h : HeapHistory) (address : ℕ) (heap_id : ℕ) :
    HeapHistory :=
  match lookupLive h.live_blocks_ (address, heap_id) with
  | none =>
    { h with
      conflicts_ := h.conflicts_ ++ [{ tick_ := h.current_tick_,
                                       address_ := address,
                                       allocation_or_free_ := false }] }
  | some idx =>
    { h with
      heap_blocks_ := closeBlockAt h.heap_blocks_ idx h.current_tick_
      live_blocks_ := eraseLive h.live_blocks_ (address, heap_id)
      current_tick_ := h.current_tick_ + 1 }

/-- The empty heap history: no blocks, no live entries, no conflicts,
tick zero, windows zeroed out. -/
def emptyHistory : HeapHistory :=
  { heap_blocks_ := []
    live_blocks_ := []
    conflicts_ := []
    current_tick_ := 0
    current_window_ :=
      { minimum_address_ := 0, maximum_address_ := 0, minimum_tick_ := 0,
        maximum_tick_ := 0, x_shift_ := 0, y_shift_ := 0 }
    global_area_ :=
      { minimum_address_ := 0, maximum_address_ := 0, minimum_tick_ := 0,
        maximum_tick_ := 0 } }

/-- Modelled from the spec: the candidate predicate of the point query
(spec section 4.3): the address range of the block contains the queried
address and its lifetime interval, allocation tick inclusive to free
tick exclusive or open-ended, contains the queried tick. -/
def isCandidate (a t : ℕ) (b : HeapBlock) : Bool :=
  decide (b.address_ ≤ a) && decide (a < b.address_ + b.size_) &&
  decide (b.alloc_tick_ ≤ t) &&
  (match b.free_tick_ with
   | none => true
   | some f => decide (t < f))

/-- Tie-break of the point query: between the candidate held so far and
a new one, keep the one with the later allocation tick. -/
def pickBetter (cur cand : ℕ × HeapBlock) : ℕ × HeapBlock :=
  if cur.2.alloc_tick_ < cand.2.alloc_tick_ then cand else cur

/-- Scan of an indexed block list for the best point-query candidate,
carrying the best candidate seen so far. -/
def bestCandidateAux (a t : ℕ) : Option (ℕ × HeapBlock) →
    List (ℕ × HeapBlock) → Option (ℕ × HeapBlock)
  | acc, [] => acc
  | none, ib :: rest =>
    if isCandidate a t ib.2 then bestCandidateAux a t (some ib) rest
    else bestCandidateAux a t none rest
  | some cur, ib :: rest =>
    if isCandidate a t ib.2 then
      bestCandidateAux a t (some (pickBetter cur ib)) rest
    else bestCandidateAux a t (some cur) rest

/-- The best point-query candidate of an indexed block list: the
member whose block is a candidate with the latest allocation tick. -/
def bestCandidate (a t : ℕ) (l : List (ℕ × HeapBlock)) :
    Option (ℕ × HeapBlock) :=
  bestCandidateAux a t none l

/-- Pairs every block of the log with its position, starting at i. -/
def enumBlocks : ℕ → List HeapBlock → List (ℕ × HeapBlock)
  | _, [] => []
  | i, b :: rest => (i, b) :: enumBlocks (i + 1) rest

/-- The address order used by the spatial index on indexed blocks. -/
def addrLE (x y : ℕ × HeapBlock) : Prop :=
  x.2.address_ ≤ y.2.address_

instance : DecidableRel addrLE := fun x y =>
  inferInstanceAs (Decidable (x.2.address_ ≤ y.2.address_))

/-- Modelled from the spec: the body of HeapHistory::getBlockAtSlow is
not part of the source tree (heaphistory.h lines 140-141 only declare
it).  Following section 4.3, the reference implementation scans the log
linearly and returns the candidate block with the latest allocation
tick at or below the query tick, together with its log position.  The
boolean result and the two out-parameters of the C++ signature are
embedded as an optional (index, block) pair. -/
def HeapHistory.getBlockAtSlow (h : HeapHistory) (address tick : ℕ) :
    Option (ℕ × HeapBlock) :=
  bestCandidate address tick (enumBlocks 0 h.heap_blocks_)

/-- Modelled from the spec: the body of HeapHistory::getBlockAt is not
part of the source tree (heaphistory.h lines 138-139 only declare it).
Following section 4.3, the accelerated query works on the rebuilt
address-sorted ordering of the log and scans the candidates whose
lifetime covers the tick, with the same tie-break; it is embedded as
the same best-candidate scan over the address-sorted indexed log. -/
def HeapHistory.getBlockAt (h : HeapHistory) (address tick : ℕ) :
    Option (ℕ × HeapBlock) :=
  bestCandidate address tick
    (List.insertionSort addrLE (enumBlocks 0 h.heap_blocks_))

/-- Claim C8: for every HeapWindow whose maxima dominate its minima and
whose fields fit the unsigned types, height is exactly the address
difference and width exactly the tick difference, with no unsigned
wraparound. -/
theorem claim_C8 (w : HeapWindow)
    (h1 : w.minimum_address_ ≤ w.maximum_address_)
    (h2 : w.maximum_address_ < 2 ^ 64)
    (h3 : w.minimum_tick_ ≤ w.maximum_tick_)
    (h4 : w.maximum_tick_ < 2 ^ 32) :
    w.height = w.maximum_address_ - w.minimum_address_ ∧
    w.width = w.maximum_tick_ - w.minimum_tick_ := by
  unfold HeapWindow.height HeapWindow.width
  omega

/-- Witness for claim C8 at the concrete window (1, 5, 2, 7). -/
theorem witness_C8 :
    (1 : ℕ) ≤ 5 ∧ (5 : ℕ) < 2 ^ 64 ∧ (2 : ℕ) ≤ 7 ∧ (7 : ℕ) < 2 ^ 32 ∧
    ((HeapWindow.mk 1 5 2 7).height = 5 - 1 ∧
     (HeapWindow.mk 1 5 2 7).width = 7 - 2) :=
  ⟨by norm_num, by norm_num, by norm_num, by norm_num,
   claim_C8 (HeapWindow.mk 1 5 2 7) (by norm_num) (by norm_num)
     (by norm_num) (by norm_num)⟩

/-- Claim C9: the high and low 32-bit getters of the minimum address
recombine exactly to the full 64-bit minimum address. -/
theorem claim_C9 (w : ContinuousHeapWindow)
    (h : w.minimum_address_ < 2 ^ 64) :
    w.getMinimumAddressHigh32 * 2 ^ 32 + w.getMinimumAddressLow32 =
      w.getMinimumAddress := by
  unfold ContinuousHeapWindow.getMinimumAddressHigh32
    ContinuousHeapWindow.getMinimumAddressLow32
    ContinuousHeapWindow.getMinimumAddress
  omega

/-- Witness for claim C9 at a concrete address above 2 to the 32. -/
theorem witness_C9 :
    (2 ^ 35 + 7 : ℕ) < 2 ^ 64 ∧
    (ContinuousHeapWindow.mk (2 ^ 35 + 7) 0 0 0 0 0).getMinimumAddressHigh32 *
        2 ^ 32 +
      (ContinuousHeapWindow.mk (2 ^ 35 + 7) 0 0 0 0 0).getMinimumAddressLow32 =
      (ContinuousHeapWindow.mk (2 ^ 35 + 7) 0 0 0 0 0).getMinimumAddress :=
  ⟨by norm_num,
   claim_C9 (ContinuousHeapWindow.mk (2 ^ 35 + 7) 0 0 0 0 0) (by norm_num)⟩

/-- Claim C10: ContinuousHeapWindow::reset copies exactly the four
integer bounds from the source HeapWindow and leaves the fractional
pan remainders x_shift_ and y_shift_ unchanged, and
setCurrentWindowToGlobal, which resets the current window from the
global area, therefore also preserves both shift fields. -/
theorem claim_C10 (w : ContinuousHeapWindow) (hw : HeapWindow)
    (h : HeapHistory) :
    (w.reset hw).x_shift_ = w.x_shift_ ∧
    (w.reset hw).y_shift_ = w.y_shift_ ∧
    (w.reset hw).minimum_address_ = hw.minimum_address_ ∧
    (w.reset hw).maximum_address_ = hw.maximum_address_ ∧
    (w.reset hw).minimum_tick_ = hw.minimum_tick_ ∧
    (w.reset hw).maximum_tick_ = hw.maximum_tick_ ∧
    h.setCurrentWindowToGlobal.current_window_ =
      h.current_window_.reset h.global_area_ ∧
    h.setCurrentWindowToGlobal.current_window_.x_shift_ =
      h.current_window_.x_shift_ ∧
    h.setCurrentWindowToGlobal.current_window_.y_shift_ =
      h.current_window_.y_shift_ :=
  ⟨rfl, rfl, rfl, rfl, rfl, rfl, rfl, rfl, rfl⟩

/-- Counterexample to claim C2 as stated: with v = 1/2 and stored value
0, the code returns 0 but stores 0, not r + v = 1/2 — the store into
the unsigned location truncates the fractional part, so the final value
is not r + v. -/
theorem counterexample_C2 :
    saturatingAddition u32max (1 / 2) 0 = (0, 0) ∧
    ¬(((saturatingAddition u32max (1 / 2) 0).2 : ℚ) = (0 : ℚ) + 1 / 2) := by
  constructor
  · unfold saturatingAddition u32max
    norm_num
  · unfold saturatingAddition u32max
    norm_num

/-- Claim C2 as amended: saturatingAddition clamps to the maximum with
return code 1 when v is positive and exceeds max - r, clamps to 0 with
return code -1 when v is negative and its magnitude exceeds r, and
otherwise returns 0 and stores the floor of r + v (the conversion back
to the unsigned type truncates); the stored value never exceeds the
maximum of the type. -/
theorem claim_C2 (tmax : ℕ) (v : ℚ) (r : ℕ) (hr : r ≤ tmax) :
    ((0 < v ∧ (tmax : ℚ) - (r : ℚ) < v) →
      saturatingAddition tmax v r = (1, tmax)) ∧
    ((v < 0 ∧ (r : ℚ) < |v|) →
      saturatingAddition tmax v r = (-1, 0)) ∧
    ((¬(0 < v ∧ (tmax : ℚ) - (r : ℚ) < v) ∧ ¬(v < 0 ∧ (r : ℚ) < |v|)) →
      saturatingAddition tmax v r = (0, (⌊(r : ℚ) + v⌋).toNat)) ∧
    (saturatingAddition tmax v r).2 ≤ tmax := by
  have hcast : ((tmax - r : ℕ) : ℚ) = (tmax : ℚ) - (r : ℚ) := by
    push_cast [hr]
    ring
  unfold saturatingAddition
  rw [hcast]
  refine ⟨fun h => by rw [if_pos h], fun h => ?_, fun h => ?_, ?_⟩
  · rw [if_neg (fun hc => absurd h.1 (not_lt.mpr hc.1.le)), if_pos h]
  · rw [if_neg h.1, if_neg h.2]
  · split_ifs with h1 h2
    · exact le_refl tmax
    · exact Nat.zero_le tmax
    · have hle : (r : ℚ) + v ≤ (tmax : ℚ) := by
        rcases lt_trichotomy v 0 with hv | hv | hv
        · have habs : |v| ≤ (r : ℚ) := le_of_not_lt fun hc => h2 ⟨hv, hc⟩
          have hneg : -v ≤ (r : ℚ) := (abs_of_neg hv) ▸ habs
          have hrq : (r : ℚ) ≤ (tmax : ℚ) := by exact_mod_cast hr
          linarith
        · subst hv
          simpa using (by exact_mod_cast hr : (r : ℚ) ≤ (tmax : ℚ))
        · have hnb : ¬((tmax : ℚ) - (r : ℚ) < v) := fun hc => h1 ⟨hv, hc⟩
          linarith [le_of_not_lt hnb]
      have hf : ⌊(r : ℚ) + v⌋ ≤ (tmax : ℤ) := by
        calc ⌊(r : ℚ) + v⌋ ≤ ⌊(tmax : ℚ)⌋ := Int.floor_le_floor hle
          _ = (tmax : ℤ) := Int.floor_natCast tmax
      omega

/-- Witness for claim C2 at tmax = 10, v = 3, r = 5. -/
theorem witness_C2 :
    (5 : ℕ) ≤ 10 ∧
    (((0 < (3 : ℚ) ∧ ((10 : ℕ) : ℚ) - ((5 : ℕ) : ℚ) < 3) →
       saturatingAddition 10 3 5 = (1, 10)) ∧
     (((3 : ℚ) < 0 ∧ ((5 : ℕ) : ℚ) < |(3 : ℚ)|) →
       saturatingAddition 10 3 5 = (-1, 0)) ∧
     ((¬(0 < (3 : ℚ) ∧ ((10 : ℕ) : ℚ) - ((5 : ℕ) : ℚ) < 3) ∧
       ¬((3 : ℚ) < 0 ∧ ((5 : ℕ) : ℚ) < |(3 : ℚ)|)) →
       saturatingAddition 10 3 5 = (0, (⌊((5 : ℕ) : ℚ) + 3⌋).toNat)) ∧
     (saturatingAddition 10 3 5).2 ≤ 10) :=
  ⟨by norm_num, claim_C2 10 3 5 (by norm_num)⟩

/-- Claim C7: saturatedAdd returns no value when the addend is zero;
for every nonzero addend and every value between the two limits the
returned value stays within the limits. -/
theorem claim_C7 (value : ℕ) (addend : ℚ) (upperlimit lowerlimit : ℕ)
    (hl : lowerlimit ≤ value) (hu : value ≤ upperlimit) :
    (addend = 0 → saturatedAdd value addend upperlimit lowerlimit = none) ∧
    (addend ≠ 0 → ∃ r, saturatedAdd value addend upperlimit lowerlimit = some r ∧
      lowerlimit ≤ r ∧ r ≤ upperlimit) := by
  have hcu : ((upperlimit - value : ℕ) : ℚ) = (upperlimit : ℚ) - (value : ℚ) := by
    push_cast [hu]
    ring
  have hcl : ((value - lowerlimit : ℕ) : ℚ) = (value : ℚ) - (lowerlimit : ℚ) := by
    push_cast [hl]
    ring
  unfold saturatedAdd
  rw [hcu, hcl]
  constructor
  · intro h
    subst h
    norm_num
  · intro hne
    split_ifs with h1 h2 h3 h4
    · exact ⟨upperlimit, rfl, hl.trans hu, le_refl _⟩
    · push_neg at h2
      have hf1 : (value : ℤ) ≤ ⌊(value : ℚ) + addend⌋ := by
        apply Int.le_floor.mpr
        push_cast
        linarith
      have hf2 : ⌊(value : ℚ) + addend⌋ ≤ (upperlimit : ℤ) := by
        have hle : (value : ℚ) + addend ≤ (upperlimit : ℚ) := by linarith
        calc ⌊(value : ℚ) + addend⌋ ≤ ⌊(upperlimit : ℚ)⌋ := Int.floor_le_floor hle
          _ = (upperlimit : ℤ) := Int.floor_natCast upperlimit
      exact ⟨_, rfl, by omega, by omega⟩
    · exact ⟨lowerlimit, rfl, le_refl _, hl.trans hu⟩
    · push_neg at h4
      have habs : (0 : ℚ) ≤ |addend| := abs_nonneg addend
      have hf1 : (lowerlimit : ℤ) ≤ ⌊(value : ℚ) - |addend|⌋ := by
        apply Int.le_floor.mpr
        push_cast
        linarith
      have hf2 : ⌊(value : ℚ) - |addend|⌋ ≤ (upperlimit : ℤ) := by
        have hle : (value : ℚ) - |addend| ≤ (upperlimit : ℚ) := by
          have hvq : (value : ℚ) ≤ (upperlimit : ℚ) := by exact_mod_cast hu
          linarith
        calc ⌊(value : ℚ) - |addend|⌋ ≤ ⌊(upperlimit : ℚ)⌋ := Int.floor_le_floor hle
          _ = (upperlimit : ℤ) := Int.floor_natCast upperlimit
      exact ⟨_, rfl, by omega, by omega⟩
    · exact absurd (le_antisymm (le_of_not_lt h3) (le_of_not_lt h1)) fun hc =>
        hne hc.symm

/-- Witness for claim C7 at value = 5, addend = -2, limits 10 and 1. -/
theorem witness_C7 :
    (1 : ℕ) ≤ 5 ∧ (5 : ℕ) ≤ 10 ∧
    (((-2 : ℚ) = 0 → saturatedAdd 5 (-2) 10 1 = none) ∧
     ((-2 : ℚ) ≠ 0 → ∃ r, saturatedAdd 5 (-2) 10 1 = some r ∧
       1 ≤ r ∧ r ≤ 10)) :=
  ⟨by norm_num, by norm_num, claim_C7 5 (-2) 10 1 (by norm_num) (by norm_num)⟩

/-- Inserting a key into the live map makes lookup of that key return
the inserted position. -/
theorem lookupLive_insertLive (l : List ((ℕ × ℕ) × ℕ)) (key : ℕ × ℕ)
    (v : ℕ) : lookupLive (insertLive l key v) key = some v := by
  induction l with
  | nil => simp [insertLive, lookupLive]
  | cons kv rest ih =>
    obtain ⟨k, v0⟩ := kv
    by_cases hk : k = key
    · subst hk
      simp [insertLive, lookupLive]
    · simp [insertLive, lookupLive, hk, ih]

/-- Claim C4: when the live map has no entry for (address, heap id),
recordFree appends exactly one conflict of kind free at that address
and changes neither the block log nor the live map. -/
theorem claim_C4 (h : HeapHistory) (address heap_id : ℕ)
    (hnone : lookupLive h.live_blocks_ (address, heap_id) = none) :
    (h.recordFree address heap_id).heap_blocks_ = h.heap_blocks_ ∧
    (h.recordFree address heap_id).live_blocks_ = h.live_blocks_ ∧
    (h.recordFree address heap_id).conflicts_ =
      h.conflicts_ ++ [{ tick_ := h.current_tick_, address_ := address,
                         allocation_or_free_ := false }] := by
  unfold HeapHistory.recordFree
  rw [hnone]
  exact ⟨rfl, rfl, rfl⟩

/-- Witness for claim C4: a free of address 8192 on the empty history. -/
theorem witness_C4 :
    lookupLive emptyHistory.live_blocks_ (8192, 0) = none ∧
    ((emptyHistory.recordFree 8192 0).heap_blocks_ =
       emptyHistory.heap_blocks_ ∧
     (emptyHistory.recordFree 8192 0).live_blocks_ =
       emptyHistory.live_blocks_ ∧
     (emptyHistory.recordFree 8192 0).conflicts_ =
       emptyHistory.conflicts_ ++
         [{ tick_ := emptyHistory.current_tick_, address_ := 8192,
            allocation_or_free_ := false }]) :=
  ⟨rfl, claim_C4 emptyHistory 8192 0 rfl⟩

/-- Counterexample to claim C3 as stated: the claim quantifies over
every event-log state, but from a state in which (4096, 0) is already
live, the next two recordMalloc calls at that key append two alloc
conflicts, not exactly one. -/
theorem counterexample_C3 :
    ¬((((emptyHistory.recordMalloc 4096 16 0).recordMalloc 4096 16
            0).recordMalloc 4096 16 0).conflicts_.length =
        (emptyHistory.recordMalloc 4096 16 0).conflicts_.length + 1) := by
  decide

/-- Claim C3 as amended: from every state whose live map has no entry
for (address, heap id), calling recordMalloc twice with that key and no
intervening free appends exactly the two blocks to the log (the first
of which stays never-closed), appends exactly one conflict of kind
alloc at that address, and leaves the live map pointing at the second
block for that key. -/
theorem claim_C3 (h : HeapHistory) (address size heap_id : ℕ)
    (hnone : lookupLive h.live_blocks_ (address, heap_id) = none) :
    ((h.recordMalloc address size heap_id).recordMalloc address size
        heap_id).heap_blocks_ =
      h.heap_blocks_ ++
        [{ address_ := address, size_ := size, heap_id_ := heap_id,
           alloc_tick_ := h.current_tick_, free_tick_ := none },
         { address_ := address, size_ := size, heap_id_ := heap_id,
           alloc_tick_ := h.current_tick_ + 1, free_tick_ := none }] ∧
    ((h.recordMalloc address size heap_id).recordMalloc address size
        heap_id).conflicts_ =
      h.conflicts_ ++
        [{ tick_ := h.current_tick_ + 1, address_ := address,
           allocation_or_free_ := true }] ∧
    lookupLive
      ((h.recordMalloc address size heap_id).recordMalloc address size
          heap_id).live_blocks_ (address, heap_id) =
      some (h.heap_blocks_.length + 1) := by
  unfold HeapHistory.recordMalloc
  refine ⟨?_, ?_, ?_⟩
  · simp
  · simp [hnone, lookupLive_insertLive]
  · simp [lookupLive_insertLive]

/-- Witness for claim C3: a double malloc at address 4096 on the empty
history. -/
theorem witness_C3 :
    lookupLive emptyHistory.live_blocks_ (4096, 0) = none ∧
    (((emptyHistory.recordMalloc 4096 16 0).recordMalloc 4096 16
        0).heap_blocks_ =
      emptyHistory.heap_blocks_ ++
        [{ address_ := 4096, size_ := 16, heap_id_ := 0,
           alloc_tick_ := 0, free_tick_ := none },
         { address_ := 4096, size_ := 16, heap_id_ := 0,
           alloc_tick_ := 1, free_tick_ := none }] ∧
     ((emptyHistory.recordMalloc 4096 16 0).recordMalloc 4096 16
        0).conflicts_ =
      emptyHistory.conflicts_ ++
        [{ tick_ := 1, address_ := 4096, allocation_or_free_ := true }] ∧
     lookupLive
       ((emptyHistory.recordMalloc 4096 16 0).recordMalloc 4096 16
           0).live_blocks_ (4096, 0) = some 1) :=
  ⟨rfl, claim_C3 emptyHistory 4096 16 0 rfl⟩

/-- A saturating store of a value that is already a natural number
within the bound is the identity. -/
theorem satClampToNat_natCast (tmax n : ℕ) (h : n ≤ tmax) :
    satClampToNat tmax (n : ℚ) = n := by
  unfold satClampToNat
  rw [if_neg (not_lt.mpr (Nat.cast_nonneg n)),
    if_neg (not_lt.mpr (by exact_mod_cast h)), Int.floor_natCast]
  simp

/-- Claim C6: zooming with scale factors 1.0 on both axes leaves the
window unchanged for every relative point (dx, dy). -/
theorem claim_C6 (w : ContinuousHeapWindow) (dx dy : ℚ)
    (h1 : w.minimum_tick_ ≤ u32max) (h2 : w.maximum_tick_ ≤ u32max)
    (h3 : w.minimum_address_ ≤ u64max) (h4 : w.maximum_address_ ≤ u64max) :
    w.zoomToPoint dx dy 1 1 = w := by
  unfold ContinuousHeapWindow.zoomToPoint
  ring_nf
  simp [satClampToNat_natCast, h1, h2, h3, h4]

/-- Witness for claim C6 at the window (100, 200, 10, 20) and the
relative point (1/3, 2/3). -/
theorem witness_C6 :
    (10 : ℕ) ≤ u32max ∧ (20 : ℕ) ≤ u32max ∧
    (100 : ℕ) ≤ u64max ∧ (200 : ℕ) ≤ u64max ∧
    (ContinuousHeapWindow.mk 100 200 10 20 0 0).zoomToPoint (1 / 3) (2 / 3)
        1 1 = ContinuousHeapWindow.mk 100 200 10 20 0 0 :=
  ⟨by norm_num [u32max], by norm_num [u32max], by norm_num [u64max],
   by norm_num [u64max],
   claim_C6 (ContinuousHeapWindow.mk 100 200 10 20 0 0) (1 / 3) (2 / 3)
     (by norm_num [u32max]) (by norm_num [u32max]) (by norm_num [u64max])
     (by norm_num [u64max])⟩

/-- Applying saturatingAddition with an integer value and a return code
of zero adds exactly that integer to the stored value. -/
theorem saturatingAddition_int_code_zero (tmax : ℕ) (n : ℤ) (r : ℕ)
    (h : (saturatingAddition tmax (n : ℚ) r).1 = 0) :
    ((saturatingAddition tmax (n : ℚ) r).2 : ℤ) = (r : ℤ) + n := by
  unfold saturatingAddition at h ⊢
  split_ifs at h ⊢ with h1 h2
  · simp at h
  · simp at h
  · have hnn : 0 ≤ (r : ℤ) + n := by
      rcases le_or_lt 0 n with hn | hn
      · omega
      · have hq : ((n : ℚ)) < 0 := by exact_mod_cast hn
        have habs : ¬((r : ℚ) < |(n : ℚ)|) := fun hc => h2 ⟨hq, hc⟩
        push_neg at habs
        rw [abs_of_neg hq] at habs
        have hle : (-n : ℤ) ≤ (r : ℤ) := by exact_mod_cast habs
        omega
    have hfl : ⌊(r : ℚ) + (n : ℚ)⌋ = (r : ℤ) + n := by
      rw [show (r : ℚ) + (n : ℚ) = (((r : ℤ) + n : ℤ) : ℚ) by push_cast; ring]
      exact Int.floor_intCast _
    simp only [hfl]
    exact Int.toNat_of_nonneg hnn

/-- The integer pan step of the reverse pan is the exact negation of
the forward step, provided the accumulator starts sub-unit. -/
theorem floor_shift_round (s d : ℚ) (hs0 : 0 ≤ s) (hs1 : s < 1) :
    ⌊(s + d - (⌊s + d⌋ : ℚ)) + -d⌋ = -⌊s + d⌋ := by
  rw [show (s + d - (⌊s + d⌋ : ℚ)) + -d = s - ((⌊s + d⌋ : ℤ) : ℚ) by ring]
  rw [Int.floor_sub_int]
  have h0 : ⌊s⌋ = 0 := Int.floor_eq_zero_iff.mpr ⟨hs0, hs1⟩
  omega

/-- Claim C5: pan(dx, dy) followed by pan(-dx, -dy) restores the
window exactly — all four integer bounds and both fractional pan
remainders — for every window whose remainders are sub-unit, provided
no saturation clamp triggered on either call (all eight return codes
are zero). -/
theorem claim_C5 (w : ContinuousHeapWindow) (dx dy : ℚ)
    (hx0 : 0 ≤ w.x_shift_) (hx1 : w.x_shift_ < 1)
    (hy0 : 0 ≤ w.y_shift_) (hy1 : w.y_shift_ < 1)
    (hc1 : (w.pan dx dy).2 = [0, 0, 0, 0])
    (hc2 : ((w.pan dx dy).1.pan (-dx) (-dy)).2 = [0, 0, 0, 0]) :
    ((w.pan dx dy).1.pan (-dx) (-dy)).1 = w := by
  have hfx := floor_shift_round w.x_shift_ dx hx0 hx1
  have hfy := floor_shift_round w.y_shift_ dy hy0 hy1
  simp only [ContinuousHeapWindow.pan] at hc1 hc2 ⊢
  rw [hfx, hfy] at hc2 ⊢
  simp only [List.cons.injEq, and_true] at hc1 hc2
  obtain ⟨e1, e2, e3, e4⟩ := hc1
  obtain ⟨f1, f2, f3, f4⟩ := hc2
  have g1 := saturatingAddition_int_code_zero u32max ⌊w.x_shift_ + dx⌋
    w.minimum_tick_ e1
  have g2 := saturatingAddition_int_code_zero u32max ⌊w.x_shift_ + dx⌋
    w.maximum_tick_ e2
  have g3 := saturatingAddition_int_code_zero u64max ⌊w.y_shift_ + dy⌋
    w.minimum_address_ e3
  have g4 := saturatingAddition_int_code_zero u64max ⌊w.y_shift_ + dy⌋
    w.maximum_address_ e4
  have k1 := saturatingAddition_int_code_zero u32max (-⌊w.x_shift_ + dx⌋)
    ((saturatingAddition u32max ((⌊w.x_shift_ + dx⌋ : ℤ) : ℚ)
        w.minimum_tick_).2) f1
  have k2 := saturatingAddition_int_code_zero u32max (-⌊w.x_shift_ + dx⌋)
    ((saturatingAddition u32max ((⌊w.x_shift_ + dx⌋ : ℤ) : ℚ)
        w.maximum_tick_).2) f2
  have k3 := saturatingAddition_int_code_zero u64max (-⌊w.y_shift_ + dy⌋)
    ((saturatingAddition u64max ((⌊w.y_shift_ + dy⌋ : ℤ) : ℚ)
        w.minimum_address_).2) f3
  have k4 := saturatingAddition_int_code_zero u64max (-⌊w.y_shift_ + dy⌋)
    ((saturatingAddition u64max ((⌊w.y_shift_ + dy⌋ : ℤ) : ℚ)
        w.maximum_address_).2) f4
  refine ContinuousHeapWindow.ext ?_ ?_ ?_ ?_ ?_ ?_
  · push_cast at k3 g3 ⊢
    omega
  · push_cast at k4 g4 ⊢
    omega
  · push_cast at k1 g1 ⊢
    omega
  · push_cast at k2 g2 ⊢
    omega
  · push_cast
    ring
  · push_cast
    ring

/-- Witness for claim C5 at the window (100, 200, 10, 20) with zero
remainders, dx = 1/2 and dy = 3. -/
theorem witness_C5 :
    (0 : ℚ) ≤ 0 ∧ (0 : ℚ) < 1 ∧
    ((ContinuousHeapWindow.mk 100 200 10 20 0 0).pan (1 / 2) 3).2 =
      [0, 0, 0, 0] ∧
    (((ContinuousHeapWindow.mk 100 200 10 20 0 0).pan (1 / 2)
          3).1.pan (-(1 / 2)) (-3)).2 = [0, 0, 0, 0] ∧
    (((ContinuousHeapWindow.mk 100 200 10 20 0 0).pan (1 / 2)
          3).1.pan (-(1 / 2)) (-3)).1 =
      ContinuousHeapWindow.mk 100 200 10 20 0 0 := by
  have hp1 : ((ContinuousHeapWindow.mk 100 200 10 20 0 0).pan (1 / 2) 3).2 =
      [0, 0, 0, 0] := by
    norm_num [ContinuousHeapWindow.pan, saturatingAddition, u32max, u64max]
  have hp2 : (((ContinuousHeapWindow.mk 100 200 10 20 0 0).pan (1 / 2)
        3).1.pan (-(1 / 2)) (-3)).2 = [0, 0, 0, 0] := by
    norm_num [ContinuousHeapWindow.pan, saturatingAddition, u32max, u64max]
  exact ⟨le_refl 0, by norm_num, hp1, hp2,
    claim_C5 (ContinuousHeapWindow.mk 100 200 10 20 0 0) (1 / 2) 3
      (le_refl 0) (by norm_num) (le_refl 0) (by norm_num) hp1 hp2⟩

/-- The tie-break keeps either the current candidate or the new one. -/
theorem pickBetter_cases (cur cand : ℕ × HeapBlock) :
    pickBetter cur cand = cur ∨ pickBetter cur cand = cand := by
  unfold pickBetter
  split_ifs
  · exact Or.inr rfl
  · exact Or.inl rfl

/-- The kept candidate allocates no earlier than the current one. -/
theorem pickBetter_le_left (cur cand : ℕ × HeapBlock) :
    cur.2.alloc_tick_ ≤ (pickBetter cur cand).2.alloc_tick_ := by
  unfold pickBetter
  split_ifs with hlt
  · exact le_of_lt hlt
  · exact le_refl _

/-- The kept candidate allocates no earlier than the new one. -/
theorem pickBetter_le_right (cur cand : ℕ × HeapBlock) :
    cand.2.alloc_tick_ ≤ (pickBetter cur cand).2.alloc_tick_ := by
  unfold pickBetter
  split_ifs with hlt
  · exact le_refl _
  · exact le_of_not_lt hlt

/-- A scan that already holds a candidate always returns one. -/
theorem bestCandidateAux_isSome (a t : ℕ) (l : List (ℕ × HeapBlock)) :
    ∀ cur, ∃ r, bestCandidateAux a t (some cur) l = some r := by
  induction l with
  | nil => exact fun cur => ⟨cur, rfl⟩
  | cons ib rest ih =>
    intro cur
    simp only [bestCandidateAux]
    split_ifs with hc
    · exact ih (pickBetter cur ib)
    · exact ih cur

/-- A scan that returns nothing saw no candidate at all. -/
theorem bestCandidateAux_none (a t : ℕ) (l : List (ℕ × HeapBlock)) :
    ∀ acc, bestCandidateAux a t acc l = none →
      ∀ ib ∈ l, isCandidate a t ib.2 = false := by
  induction l with
  | nil =>
    intro acc h ib hib
    simp at hib
  | cons jb rest ih =>
    intro acc h ib hib
    rcases List.mem_cons.mp hib with heq | hm
    · subst heq
      cases acc with
      | none =>
        simp only [bestCandidateAux] at h
        by_cases hc : isCandidate a t ib.2 = true
        · rw [if_pos hc] at h
          obtain ⟨r, hr⟩ := bestCandidateAux_isSome a t rest ib
          rw [hr] at h
          cases h
        · exact Bool.eq_false_iff.mpr hc
      | some cur =>
        simp only [bestCandidateAux] at h
        by_cases hc : isCandidate a t ib.2 = true
        · rw [if_pos hc] at h
          obtain ⟨r, hr⟩ := bestCandidateAux_isSome a t rest (pickBetter cur ib)
          rw [hr] at h
          cases h
        · exact Bool.eq_false_iff.mpr hc
    · cases acc with
      | none =>
        simp only [bestCandidateAux] at h
        split_ifs at h with hc
        · exact ih (some jb) h ib hm
        · exact ih none h ib hm
      | some cur =>
        simp only [bestCandidateAux] at h
        split_ifs at h with hc
        · exact ih (some (pickBetter cur jb)) h ib hm
        · exact ih (some cur) h ib hm

/-- A scan that returns a candidate returns a member of the list (or
its starting accumulator) that is a candidate and whose allocation tick
dominates every candidate of the list and the accumulator. -/
theorem bestCandidateAux_spec (a t : ℕ) (l : List (ℕ × HeapBlock)) :
    ∀ acc r, bestCandidateAux a t acc l = some r →
      (acc = some r ∨ (r ∈ l ∧ isCandidate a t r.2 = true)) ∧
      (∀ ib ∈ l, isCandidate a t ib.2 = true →
        ib.2.alloc_tick_ ≤ r.2.alloc_tick_) ∧
      (∀ cur, acc = some cur → cur.2.alloc_tick_ ≤ r.2.alloc_tick_) := by
  induction l with
  | nil =>
    intro acc r h
    simp only [bestCandidateAux] at h
    refine ⟨Or.inl h, by simp, fun cur hcur => ?_⟩
    rw [hcur] at h
    injection h with h
    rw [h]
  | cons jb rest ih =>
    intro acc r h
    cases acc with
    | none =>
      simp only [bestCandidateAux] at h
      split_ifs at h with hc
      · obtain ⟨hmem, hub, hacc⟩ := ih (some jb) r h
        refine ⟨?_, ?_, ?_⟩
        · rcases hmem with heq | ⟨hm, hcand⟩
          · injection heq with heq
            exact Or.inr ⟨heq ▸ List.mem_cons_self jb rest, heq ▸ hc⟩
          · exact Or.inr ⟨List.mem_cons_of_mem _ hm, hcand⟩
        · intro ib hib hic
          rcases List.mem_cons.mp hib with heq | hm
          · subst heq
            exact hacc ib rfl
          · exact hub ib hm hic
        · intro cur hcur
          cases hcur
      · obtain ⟨hmem, hub, hacc⟩ := ih none r h
        refine ⟨?_, ?_, ?_⟩
        · rcases hmem with heq | ⟨hm, hcand⟩
          · cases heq
          · exact Or.inr ⟨List.mem_cons_of_mem _ hm, hcand⟩
        · intro ib hib hic
          rcases List.mem_cons.mp hib with heq | hm
          · subst heq
            exact absurd hic hc
          · exact hub ib hm hic
        · intro cur hcur
          cases hcur
    | some cur =>
      simp only [bestCandidateAux] at h
      split_ifs at h with hc
      · obtain ⟨hmem, hub, hacc⟩ := ih (some (pickBetter cur jb)) r h
        have hcur_le : cur.2.alloc_tick_ ≤ r.2.alloc_tick_ :=
          le_trans (pickBetter_le_left cur jb) (hacc _ rfl)
        refine ⟨?_, ?_, ?_⟩
        · rcases hmem with heq | ⟨hm, hcand⟩
          · injection heq with heq
            rcases pickBetter_cases cur jb with hpb | hpb
            · rw [hpb] at heq
              exact Or.inl (congrArg some heq)
            · rw [hpb] at heq
              exact Or.inr ⟨heq ▸ List.mem_cons_self jb rest, heq ▸ hc⟩
          · exact Or.inr ⟨List.mem_cons_of_mem _ hm, hcand⟩
        · intro ib hib hic
          rcases List.mem_cons.mp hib with heq | hm
          · subst heq
            exact le_trans (pickBetter_le_right cur ib) (hacc _ rfl)
          · exact hub ib hm hic
        · intro cur2 hcur2
          injection hcur2 with hcur2
          exact hcur2 ▸ hcur_le
      · obtain ⟨hmem, hub, hacc⟩ := ih (some cur) r h
        refine ⟨?_, ?_, ?_⟩
        · rcases hmem with heq | ⟨hm, hcand⟩
          · exact Or.inl heq
          · exact Or.inr ⟨List.mem_cons_of_mem _ hm, hcand⟩
        · intro ib hib hic
          rcases List.mem_cons.mp hib with heq | hm
          · subst heq
            exact absurd hic hc
          · exact hub ib hm hic
        · exact hacc

/-- The best candidate of a list is a candidate member whose
allocation tick dominates every candidate of the list. -/
theorem bestCandidate_spec (a t : ℕ) (l : List (ℕ × HeapBlock))
    (r : ℕ × HeapBlock) (h : bestCandidate a t l = some r) :
    r ∈ l ∧ isCandidate a t r.2 = true ∧
    ∀ ib ∈ l, isCandidate a t ib.2 = true →
      ib.2.alloc_tick_ ≤ r.2.alloc_tick_ := by
  obtain ⟨hmem, hub, _⟩ := bestCandidateAux_spec a t l none r h
  rcases hmem with heq | ⟨hm, hc⟩
  · cases heq
  · exact ⟨hm, hc, hub⟩

/-- When no best candidate exists, no member is a candidate. -/
theorem bestCandidate_none (a t : ℕ) (l : List (ℕ × HeapBlock))
    (h : bestCandidate a t l = none) :
    ∀ ib ∈ l, isCandidate a t ib.2 = false :=
  bestCandidateAux_none a t l none h

/-- Every indexed member of the enumerated log carries a log block. -/
theorem enumBlocks_mem_snd (l : List HeapBlock) :
    ∀ i ib, ib ∈ enumBlocks i l → ib.2 ∈ l := by
  induction l with
  | nil =>
    intro i ib h
    simp [enumBlocks] at h
  | cons b rest ih =>
    intro i ib h
    simp only [enumBlocks, List.mem_cons] at h
    rcases h with heq | hm
    · rw [heq]
      exact List.mem_cons_self b rest
    · exact List.mem_cons_of_mem _ (ih (i + 1) ib hm)

/-- Enumerating the log preserves pairwise relations on the blocks. -/
theorem enumBlocks_pairwise (R : HeapBlock → HeapBlock → Prop)
    (l : List HeapBlock) (h : l.Pairwise R) :
    ∀ i, (enumBlocks i l).Pairwise (fun x y => R x.2 y.2) := by
  induction h with
  | nil =>
    intro i
    exact List.Pairwise.nil
  | cons hhead htail ih =>
    intro i
    simp only [enumBlocks]
    refine List.Pairwise.cons ?_ (ih (i + 1))
    intro y hy
    exact hhead y.2 (enumBlocks_mem_snd _ _ _ hy)

/-- In a list of blocks with pairwise distinct allocation ticks, two
members with the same allocation tick are the same member. -/
theorem mem_unique_of_pairwise_ne (l : List (ℕ × HeapBlock))
    (hpw : l.Pairwise (fun x y => x.2.alloc_tick_ ≠ y.2.alloc_tick_)) :
    ∀ x y, x ∈ l → y ∈ l → x.2.alloc_tick_ = y.2.alloc_tick_ → x = y := by
  induction hpw with
  | nil =>
    intro x y hx hy heq
    simp at hx
  | cons ha htail ih =>
    intro x y hx hy heq
    rcases List.mem_cons.mp hx with hx1 | hx2
    · rcases List.mem_cons.mp hy with hy1 | hy2
      · rw [hx1, hy1]
      · subst hx1
        exact absurd heq (ha y hy2)
    · rcases List.mem_cons.mp hy with hy1 | hy2
      · subst hy1
        exact absurd heq.symm (ha x hx2)
      · exact ih x y hx2 hy2 heq

/-- Claim C1: on every history whose blocks carry pairwise distinct
allocation ticks (the tick counter gives every event a unique
timestamp), the accelerated point query getBlockAt and the reference
linear scan getBlockAtSlow return the same optional (index, block)
result, and a found block is a candidate whose allocation tick is the
latest among all candidates overlapping the query. -/
theorem claim_C1 (h : HeapHistory) (address tick : ℕ)
    (hdist : h.heap_blocks_.Pairwise fun b c => b.alloc_tick_ ≠ c.alloc_tick_) :
    h.getBlockAt address tick = h.getBlockAtSlow address tick ∧
    ∀ i b, h.getBlockAtSlow address tick = some (i, b) →
      isCandidate address tick b = true ∧
      ∀ jc ∈ enumBlocks 0 h.heap_blocks_,
        isCandidate address tick jc.2 = true →
          jc.2.alloc_tick_ ≤ b.alloc_tick_ := by
  have hpw : (enumBlocks 0 h.heap_blocks_).Pairwise
      (fun x y => x.2.alloc_tick_ ≠ y.2.alloc_tick_) :=
    enumBlocks_pairwise _ _ hdist 0
  have hperm :
      (List.insertionSort addrLE (enumBlocks 0 h.heap_blocks_)).Perm
        (enumBlocks 0 h.heap_blocks_) :=
    List.perm_insertionSort addrLE _
  constructor
  · unfold HeapHistory.getBlockAt HeapHistory.getBlockAtSlow
    cases hs : bestCandidate address tick (enumBlocks 0 h.heap_blocks_) with
    | none =>
      cases hf : bestCandidate address tick
          (List.insertionSort addrLE (enumBlocks 0 h.heap_blocks_)) with
      | none => rfl
      | some r2 =>
        obtain ⟨hm2, hc2, _⟩ := bestCandidate_spec _ _ _ _ hf
        have hin : r2 ∈ enumBlocks 0 h.heap_blocks_ := hperm.mem_iff.mp hm2
        have hfalse := bestCandidate_none _ _ _ hs r2 hin
        rw [hfalse] at hc2
        cases hc2
    | some r1 =>
      cases hf : bestCandidate address tick
          (List.insertionSort addrLE (enumBlocks 0 h.heap_blocks_)) with
      | none =>
        obtain ⟨hm1, hc1, _⟩ := bestCandidate_spec _ _ _ _ hs
        have hin : r1 ∈ List.insertionSort addrLE (enumBlocks 0 h.heap_blocks_) :=
          hperm.mem_iff.mpr hm1
        have hfalse := bestCandidate_none _ _ _ hf r1 hin
        rw [hfalse] at hc1
        cases hc1
      | some r2 =>
        obtain ⟨hm1, hc1, hub1⟩ := bestCandidate_spec _ _ _ _ hs
        obtain ⟨hm2, hc2, hub2⟩ := bestCandidate_spec _ _ _ _ hf
        have hm2a : r2 ∈ enumBlocks 0 h.heap_blocks_ := hperm.mem_iff.mp hm2
        have hm1a : r1 ∈ List.insertionSort addrLE (enumBlocks 0 h.heap_blocks_) :=
          hperm.mem_iff.mpr hm1
        have hle1 : r1.2.alloc_tick_ ≤ r2.2.alloc_tick_ := hub2 r1 hm1a hc1
        have hle2 : r2.2.alloc_tick_ ≤ r1.2.alloc_tick_ := hub1 r2 hm2a hc2
        have heq12 : r1 = r2 :=
          mem_unique_of_pairwise_ne _ hpw r1 r2 hm1 hm2a
            (le_antisymm hle1 hle2)
        rw [heq12]
  · intro i b hsb
    unfold HeapHistory.getBlockAtSlow at hsb
    obtain ⟨hm, hc, hub⟩ := bestCandidate_spec _ _ _ _ hsb
    exact ⟨hc, fun jc hjc hjcand => hub jc hjc hjcand⟩

/-- Witness for claim C1 on a two-block double-alloc overlap at
address 4096 queried at (4100, 5). -/
theorem witness_C1 :
    (HeapHistory.mk
        [⟨4096, 16, 0, 0, none⟩, ⟨4096, 16, 0, 1, none⟩] [] [] 2
        ⟨0, 0, 0, 0, 0, 0⟩ ⟨0, 0, 0, 0⟩).heap_blocks_.Pairwise
      (fun b c => b.alloc_tick_ ≠ c.alloc_tick_) ∧
    ((HeapHistory.mk
        [⟨4096, 16, 0, 0, none⟩, ⟨4096, 16, 0, 1, none⟩] [] [] 2
        ⟨0, 0, 0, 0, 0, 0⟩ ⟨0, 0, 0, 0⟩).getBlockAt 4100 5 =
      (HeapHistory.mk
        [⟨4096, 16, 0, 0, none⟩, ⟨4096, 16, 0, 1, none⟩] [] [] 2
        ⟨0, 0, 0, 0, 0, 0⟩ ⟨0, 0, 0, 0⟩).getBlockAtSlow 4100 5 ∧
     ∀ i b,
       (HeapHistory.mk
          [⟨4096, 16, 0, 0, none⟩, ⟨4096, 16, 0, 1, none⟩] [] [] 2
          ⟨0, 0, 0, 0, 0, 0⟩ ⟨0, 0, 0, 0⟩).getBlockAtSlow 4100 5 =
          some (i, b) →
        isCandidate 4100 5 b = true ∧
        ∀ jc ∈ enumBlocks 0
            (HeapHistory.mk
              [⟨4096, 16, 0, 0, none⟩, ⟨4096, 16, 0, 1, none⟩] [] [] 2
              ⟨0, 0, 0, 0, 0, 0⟩ ⟨0, 0, 0, 0⟩).heap_blocks_,
          isCandidate 4100 5 jc.2 = true →
            jc.2.alloc_tick_ ≤ b.alloc_tick_) :=
  ⟨by decide,
   claim_C1
     (HeapHistory.mk
       [⟨4096, 16, 0, 0, none⟩, ⟨4096, 16, 0, 1, none⟩] [] [] 2
       ⟨0, 0, 0, 0, 0, 0⟩ ⟨0, 0, 0, 0⟩) 4100 5 (by decide)⟩

